import Mathlib

/-!
# Verification of the fastpdf Go client

A shallow embedding of the `fastpdf` package (`api.go`, `errors.go`) together
with proofs of the behavioural claims made by the repository's specification.

Modelling conventions:
* Go byte sequences (`[]byte` and `string`, which in Go are both plain byte
  strings) are modelled as Lean `String` / `List Char`.
* Machine-independent library calls (`os.ReadFile`, `mime.TypeByExtension`,
  `http.DetectContentType`, the network transport, `zip.NewReader`,
  `os.MkdirAll`, `os.OpenFile`, `io.Copy`) are modelled as oracle functions
  supplied through explicit environment records; the package logic under
  verification is translated directly from the source.
* `encoding/json` serialization of `[]int` and `[][]int` is modelled exactly
  (Go renders e.g. `[3,7]` and `[[0,1],[1,2]]` with no spaces).  A `nil` Go
  slice would render as `null`; the Lean model covers the non-nil slices the
  specification talks about.
-/

namespace FastPdf

/-! ## Decimal rendering of integers (as produced by `encoding/json`) -/

def digitChar (d : Nat) : Char := Char.ofNat (48 + d)

def isDigitChar (c : Char) : Bool := 48 ≤ c.toNat && c.toNat ≤ 57

def digitVal (c : Char) : Nat := c.toNat - 48

/-- Fuel-driven decimal rendering of a positive natural number
(most significant digit first). -/
def natReprAux : Nat → Nat → List Char
  | 0, _ => []
  | fuel + 1, n => if n = 0 then [] else natReprAux fuel (n / 10) ++ [digitChar (n % 10)]

def natRepr (n : Nat) : List Char := if n = 0 then ['0'] else natReprAux n n

def intRepr (i : Int) : List Char :=
  if i < 0 then '-' :: natRepr i.natAbs else natRepr i.natAbs

/-- Comma-separated concatenation, as between JSON array elements. -/
def joinComma : List (List Char) → List Char
  | [] => []
  | [x] => x
  | x :: y :: t => x ++ ',' :: joinComma (y :: t)

/-- Go `json.Marshal` output for a (non-nil) `[]int`. -/
def jsonIntList (l : List Int) : List Char :=
  '[' :: (joinComma (l.map intRepr) ++ [']'])

/-- Go `json.Marshal` output for a (non-nil) `[][]int` with non-nil elements. -/
def jsonIntListList (ll : List (List Int)) : List Char :=
  '[' :: (joinComma (ll.map jsonIntList) ++ [']'])

/-! ## A JSON deserializer for integer lists

Used to state the specification's round-trip properties ("the `splits` field
deserializes back to the identical structure"). -/

def parseNat (cs : List Char) : Option (Nat × List Char) :=
  if cs.takeWhile isDigitChar = [] then none
  else some ((cs.takeWhile isDigitChar).foldl (fun a c => 10 * a + digitVal c) 0,
             cs.dropWhile isDigitChar)

def parseInt (cs : List Char) : Option (Int × List Char) :=
  if cs.head? = some '-' then
    (parseNat (cs.drop 1)).map (fun p => (-(p.1 : Int), p.2))
  else
    (parseNat cs).map (fun p => ((p.1 : Int), p.2))

def parseElems : Nat → List Char → Option (List Int × List Char)
  | 0, _ => none
  | fuel + 1, cs =>
    (parseInt cs).bind fun p =>
      if p.2.head? = some ',' then
        (parseElems fuel (p.2.drop 1)).map fun q => (p.1 :: q.1, q.2)
      else some ([p.1], p.2)

def parseIntList (cs : List Char) : Option (List Int) :=
  if cs.head? = some '[' then
    if cs.drop 1 = [']'] then some []
    else
      (parseElems (cs.drop 1).length (cs.drop 1)).bind fun p =>
        if p.2 = [']'] then some p.1 else none
  else none

def parseInner (cs : List Char) : Option (List Int × List Char) :=
  if cs.head? = some '[' then
    if (cs.drop 1).head? = some ']' then some ([], (cs.drop 1).drop 1)
    else
      (parseElems (cs.drop 1).length (cs.drop 1)).bind fun p =>
        if p.2.head? = some ']' then some (p.1, p.2.drop 1) else none
  else none

def parseInnerElems : Nat → List Char → Option (List (List Int) × List Char)
  | 0, _ => none
  | fuel + 1, cs =>
    (parseInner cs).bind fun p =>
      if p.2.head? = some ',' then
        (parseInnerElems fuel (p.2.drop 1)).map fun q => (p.1 :: q.1, q.2)
      else some ([p.1], p.2)

def parseIntListList (cs : List Char) : Option (List (List Int)) :=
  if cs.head? = some '[' then
    if cs.drop 1 = [']'] then some []
    else
      (parseInnerElems (cs.drop 1).length (cs.drop 1)).bind fun p =>
        if p.2 = [']'] then some p.1 else none
  else none

/-! ## Round-trip lemmas for the integer-list JSON encoding -/

lemma digitChar_toNat {d : Nat} (h : d < 10) : (digitChar d).toNat = 48 + d := by
  interval_cases d <;> decide

lemma isDigitChar_digitChar {d : Nat} (h : d < 10) : isDigitChar (digitChar d) = true := by
  interval_cases d <;> decide

lemma digitVal_digitChar {d : Nat} (h : d < 10) : digitVal (digitChar d) = d := by
  interval_cases d <;> decide

lemma natReprAux_eq_digits :
    ∀ fuel n : Nat, n ≤ fuel →
      natReprAux fuel n = ((Nat.digits 10 n).map digitChar).reverse := by
  intro fuel
  induction fuel with
  | zero =>
    intro n hn
    interval_cases n
    simp [natReprAux]
  | succ fuel ih =>
    intro n hn
    by_cases h0 : n = 0
    · subst h0; simp [natReprAux]
    · have hdiv : n / 10 ≤ fuel := by omega
      simp only [natReprAux, if_neg h0, ih (n / 10) hdiv]
      rw [Nat.digits_def' (b := 10) (by norm_num) (Nat.pos_of_ne_zero h0)]
      simp

lemma natRepr_ne_nil (n : Nat) : natRepr n ≠ [] := by
  by_cases h0 : n = 0
  · subst h0; simp [natRepr]
  · simp only [natRepr, if_neg h0, natReprAux_eq_digits n n le_rfl]
    simp [Nat.digits_ne_nil_iff_ne_zero, h0]

lemma mem_natRepr_isDigit {n : Nat} {c : Char} (h : c ∈ natRepr n) :
    isDigitChar c = true := by
  by_cases h0 : n = 0
  · subst h0
    have hz : natRepr 0 = ['0'] := rfl
    rw [hz, List.mem_singleton] at h
    subst h; decide
  · simp only [natRepr, if_neg h0, natReprAux_eq_digits n n le_rfl,
      List.mem_reverse, List.mem_map] at h
    obtain ⟨d, hd, rfl⟩ := h
    exact isDigitChar_digitChar (Nat.digits_lt_base (by norm_num) hd)

lemma foldl_digits (L : List Nat) (h : ∀ d ∈ L, d < 10) :
    ((L.map digitChar).reverse).foldl (fun a c => 10 * a + digitVal c) 0
      = Nat.ofDigits 10 L := by
  induction L with
  | nil => simp [Nat.ofDigits_nil]
  | cons d L ih =>
    rw [List.map_cons, List.reverse_cons, List.foldl_append,
      ih (fun x hx => h x (List.mem_cons_of_mem _ hx))]
    simp only [List.foldl_cons, List.foldl_nil,
      digitVal_digitChar (h d (List.mem_cons_self _ _)), Nat.ofDigits_cons]
    omega

lemma natRepr_value (n : Nat) :
    (natRepr n).foldl (fun a c => 10 * a + digitVal c) 0 = n := by
  by_cases h0 : n = 0
  · subst h0; decide
  · rw [natRepr, if_neg h0, natReprAux_eq_digits n n le_rfl,
      foldl_digits _ (fun d hd => Nat.digits_lt_base (by norm_num) hd),
      Nat.ofDigits_digits]

lemma takeWhile_append_of_head {p : Char → Bool} :
    ∀ (xs rest : List Char), (∀ c ∈ xs, p c = true) →
      (∀ c, rest.head? = some c → p c = false) →
      (xs ++ rest).takeWhile p = xs ∧ (xs ++ rest).dropWhile p = rest := by
  intro xs
  induction xs with
  | nil =>
    intro rest _ hrest
    cases rest with
    | nil => simp
    | cons r rs =>
      have hr := hrest r rfl
      simp [List.takeWhile_cons, List.dropWhile_cons, hr]
  | cons x xs ih =>
    intro rest hxs hrest
    have hx : p x = true := hxs x (List.mem_cons_self _ _)
    have h2 := ih rest (fun c hc => hxs c (List.mem_cons_of_mem _ hc)) hrest
    simp [List.takeWhile_cons, List.dropWhile_cons, hx, h2.1, h2.2]

lemma parseNat_natRepr (n : Nat) (rest : List Char)
    (hrest : ∀ c, rest.head? = some c → isDigitChar c = false) :
    parseNat (natRepr n ++ rest) = some (n, rest) := by
  have hsplit := takeWhile_append_of_head (natRepr n) rest
    (fun c hc => mem_natRepr_isDigit hc) hrest
  simp only [parseNat, hsplit.1, hsplit.2, if_neg (natRepr_ne_nil n), natRepr_value]

lemma natRepr_head_not_dash (n : Nat) :
    ¬ (natRepr n ++ rest).head? = some '-' := by
  obtain ⟨d, ds, hd⟩ := List.exists_cons_of_ne_nil (natRepr_ne_nil n)
  have hdig : isDigitChar d = true :=
    mem_natRepr_isDigit (hd ▸ List.mem_cons_self d ds)
  rw [hd]
  intro h
  simp only [List.cons_append, List.head?_cons, Option.some.injEq] at h
  subst h
  exact absurd hdig (by decide)

lemma parseInt_intRepr (i : Int) (rest : List Char)
    (hrest : ∀ c, rest.head? = some c → isDigitChar c = false) :
    parseInt (intRepr i ++ rest) = some (i, rest) := by
  by_cases hneg : i < 0
  · have habs : (-(i.natAbs : Int)) = i := by omega
    simp only [intRepr, if_pos hneg, List.cons_append, parseInt, List.head?_cons]
    rw [if_pos trivial]
    simp only [List.drop_one, List.tail_cons, parseNat_natRepr i.natAbs rest hrest,
      Option.map_some', habs]
  · have habs : ((i.natAbs : Int)) = i := by omega
    simp only [intRepr, if_neg hneg, parseInt]
    rw [if_neg (natRepr_head_not_dash i.natAbs)]
    simp only [parseNat_natRepr i.natAbs rest hrest, Option.map_some', habs]

lemma intRepr_ne_nil (i : Int) : intRepr i ≠ [] := by
  simp only [intRepr]
  split
  · simp
  · exact natRepr_ne_nil _

lemma joinComma_length (ll : List (List Char)) (h : ∀ x ∈ ll, x ≠ []) :
    ll.length ≤ (joinComma ll).length := by
  induction ll with
  | nil => simp [joinComma]
  | cons x t ih =>
    cases t with
    | nil =>
      have hx : 1 ≤ x.length := List.length_pos.mpr (h x (List.mem_cons_self _ _))
      simpa [joinComma] using hx
    | cons y t2 =>
      have hx : 1 ≤ x.length := List.length_pos.mpr (h x (List.mem_cons_self _ _))
      have h2 := ih (fun z hz => h z (List.mem_cons_of_mem _ hz))
      simp only [List.length_cons] at h2 ⊢
      simp only [joinComma, List.length_append, List.length_cons]
      omega

lemma parseElems_elems :
    ∀ (l : List Int) (fuel : Nat) (rest : List Char),
      l ≠ [] → l.length ≤ fuel →
      (∀ c, rest.head? = some c → isDigitChar c = false ∧ ¬ c = ',') →
      parseElems fuel (joinComma (l.map intRepr) ++ rest) = some (l, rest) := by
  intro l
  induction l with
  | nil => intro fuel rest h; exact absurd rfl h
  | cons i l ih =>
    intro fuel rest _ hfuel hrest
    cases fuel with
    | zero => simp at hfuel
    | succ fuel =>
      cases l with
      | nil =>
        rw [show joinComma ([i].map intRepr) = intRepr i from rfl]
        simp only [parseElems]
        rw [parseInt_intRepr i rest (fun c hc => (hrest c hc).1)]
        simp only [Option.some_bind]
        rw [if_neg (fun h => (hrest ',' h).2 rfl)]
      | cons j l2 =>
        have hstep : joinComma ((i :: j :: l2).map intRepr) ++ rest
            = intRepr i ++ (',' :: (joinComma ((j :: l2).map intRepr) ++ rest)) := by
          simp [joinComma]
        rw [hstep]
        simp only [parseElems]
        rw [parseInt_intRepr i (',' :: (joinComma ((j :: l2).map intRepr) ++ rest))
          (fun c hc => by
            simp only [List.head?_cons, Option.some.injEq] at hc
            subst hc; decide)]
        simp only [Option.some_bind]
        rw [if_pos
          (show (',' :: (joinComma ((j :: l2).map intRepr) ++ rest)).head? = some ','
            from rfl)]
        rw [show (',' :: (joinComma ((j :: l2).map intRepr) ++ rest)).drop 1
            = joinComma ((j :: l2).map intRepr) ++ rest from rfl]
        rw [ih fuel rest (by simp)
          (by simp only [List.length_cons] at hfuel ⊢; omega) hrest]
        rfl

/-- C7 core lemma: the JSON encoding of an integer list deserializes back to
the identical list. -/
lemma parseIntList_jsonIntList (l : List Int) :
    parseIntList (jsonIntList l) = some l := by
  cases l with
  | nil => decide
  | cons i l =>
    have hne : ∀ x ∈ (i :: l).map intRepr, x ≠ [] := by
      intro x hx
      simp only [List.mem_map] at hx
      obtain ⟨j, _, rfl⟩ := hx
      exact intRepr_ne_nil j
    have hlen : l.length + 1 ≤ (joinComma ((i :: l).map intRepr)).length := by
      simpa using joinComma_length _ hne
    have hbody : joinComma ((i :: l).map intRepr) ++ [']'] ≠ [']'] := by
      intro h
      have hl := congrArg List.length h
      simp only [List.length_append, List.length_cons, List.length_nil] at hl
      omega
    show parseIntList ('[' :: (joinComma ((i :: l).map intRepr) ++ [']'])) = _
    simp only [parseIntList]
    rw [if_pos
      (show ('[' :: (joinComma ((i :: l).map intRepr) ++ [']'])).head? = some '['
        from rfl)]
    rw [show ('[' :: (joinComma ((i :: l).map intRepr) ++ [']'])).drop 1
        = joinComma ((i :: l).map intRepr) ++ [']'] from rfl]
    rw [if_neg hbody]
    rw [parseElems_elems (i :: l) _ [']'] (by simp)
      (by simp only [List.length_append, List.length_cons, List.length_nil]; omega)
      (by intro c hc
          simp only [List.head?_cons, Option.some.injEq] at hc
          subst hc
          exact ⟨by decide, by decide⟩)]
    simp only [Option.some_bind]
    rw [if_pos trivial]

lemma joinComma_cons (x : List Char) (t : List (List Char)) :
    ∃ s, joinComma (x :: t) = x ++ s := by
  cases t with
  | nil => exact ⟨[], by simp [joinComma]⟩
  | cons y t2 => exact ⟨',' :: joinComma (y :: t2), rfl⟩

lemma intRepr_head_cases (i : Int) {c : Char} {cs : List Char}
    (h : intRepr i = c :: cs) : isDigitChar c = true ∨ c = '-' := by
  by_cases hneg : i < 0
  · right
    simp only [intRepr, if_pos hneg] at h
    exact (List.cons.injEq .. ▸ h).1.symm
  · left
    simp only [intRepr, if_neg hneg] at h
    exact mem_natRepr_isDigit (h ▸ List.mem_cons_self c cs)

/-- A rendered inner list is parsed back exactly, whatever follows it. -/
lemma parseInner_jsonIntList (z : List Int) (rest : List Char) :
    parseInner (jsonIntList z ++ rest) = some (z, rest) := by
  cases z with
  | nil =>
    show parseInner ('[' :: ']' :: rest) = some ([], rest)
    simp only [parseInner]
    rw [if_pos (show ('[' :: ']' :: rest).head? = some '[' from rfl)]
    rw [if_pos (show (('[' :: ']' :: rest).drop 1).head? = some ']' from rfl)]
    rfl
  | cons i z =>
    have hne : ∀ x ∈ (i :: z).map intRepr, x ≠ [] := by
      intro x hx
      simp only [List.mem_map] at hx
      obtain ⟨j, _, rfl⟩ := hx
      exact intRepr_ne_nil j
    have hlen : z.length + 1 ≤ (joinComma ((i :: z).map intRepr)).length := by
      simpa using joinComma_length _ hne
    obtain ⟨d, ds, hd⟩ :=
      List.exists_cons_of_ne_nil (intRepr_ne_nil i)
    obtain ⟨s, hs⟩ := joinComma_cons (intRepr i) (z.map intRepr)
    have hjoin : joinComma ((i :: z).map intRepr) = d :: (ds ++ s) := by
      rw [List.map_cons, hs, hd]; rfl
    have hdnot : ¬ d = ']' := by
      rcases intRepr_head_cases i hd with hdig | hdash
      · intro h; subst h; exact absurd hdig (by decide)
      · intro h; subst h; cases hdash
    have harr : jsonIntList (i :: z) ++ rest
        = '[' :: (joinComma ((i :: z).map intRepr) ++ (']' :: rest)) := by
      simp [jsonIntList]
    rw [harr]
    simp only [parseInner]
    rw [if_pos
      (show ('[' :: (joinComma ((i :: z).map intRepr) ++ (']' :: rest))).head?
          = some '[' from rfl)]
    rw [show ('[' :: (joinComma ((i :: z).map intRepr) ++ (']' :: rest))).drop 1
        = joinComma ((i :: z).map intRepr) ++ (']' :: rest) from rfl]
    rw [if_neg (by rw [hjoin]; simp [hdnot])]
    rw [parseElems_elems (i :: z) _ (']' :: rest) (by simp)
      (by simp only [List.length_append, List.length_cons]; omega)
      (by intro c hc
          simp only [List.head?_cons, Option.some.injEq] at hc
          subst hc
          exact ⟨by decide, by decide⟩)]
    simp only [Option.some_bind]
    rw [if_pos (show ((']' :: rest) : List Char).head? = some ']' from rfl)]
    rfl

lemma jsonIntList_ne_nil (z : List Int) : jsonIntList z ≠ [] := by
  simp [jsonIntList]

lemma parseInnerElems_elems :
    ∀ (ll : List (List Int)) (fuel : Nat) (rest : List Char),
      ll ≠ [] → ll.length ≤ fuel →
      (∀ c, rest.head? = some c → ¬ c = ',') →
      parseInnerElems fuel (joinComma (ll.map jsonIntList) ++ rest) = some (ll, rest) := by
  intro ll
  induction ll with
  | nil => intro fuel rest h; exact absurd rfl h
  | cons z ll ih =>
    intro fuel rest _ hfuel hrest
    cases fuel with
    | zero => simp at hfuel
    | succ fuel =>
      cases ll with
      | nil =>
        rw [show joinComma ([z].map jsonIntList) = jsonIntList z from rfl]
        simp only [parseInnerElems]
        rw [parseInner_jsonIntList z rest]
        simp only [Option.some_bind]
        rw [if_neg (fun h => (hrest ',' h) rfl)]
      | cons z2 ll2 =>
        have hstep : joinComma ((z :: z2 :: ll2).map jsonIntList) ++ rest
            = jsonIntList z ++ (',' :: (joinComma ((z2 :: ll2).map jsonIntList) ++ rest)) := by
          simp [joinComma]
        rw [hstep]
        simp only [parseInnerElems]
        rw [parseInner_jsonIntList z (',' :: (joinComma ((z2 :: ll2).map jsonIntList) ++ rest))]
        simp only [Option.some_bind]
        rw [if_pos
          (show (',' :: (joinComma ((z2 :: ll2).map jsonIntList) ++ rest)).head? = some ','
            from rfl)]
        rw [show (',' :: (joinComma ((z2 :: ll2).map jsonIntList) ++ rest)).drop 1
            = joinComma ((z2 :: ll2).map jsonIntList) ++ rest from rfl]
        rw [ih fuel rest (by simp)
          (by simp only [List.length_cons] at hfuel ⊢; omega) hrest]
        rfl

/-- C7 core lemma: the JSON encoding of a list of integer lists deserializes
back to the identical nested structure. -/
lemma parseIntListList_jsonIntListList (ll : List (List Int)) :
    parseIntListList (jsonIntListList ll) = some ll := by
  cases ll with
  | nil => decide
  | cons z ll =>
    have hne : ∀ x ∈ (z :: ll).map jsonIntList, x ≠ [] := by
      intro x hx
      simp only [List.mem_map] at hx
      obtain ⟨w, _, rfl⟩ := hx
      exact jsonIntList_ne_nil w
    have hlen : ll.length + 1 ≤ (joinComma ((z :: ll).map jsonIntList)).length := by
      simpa using joinComma_length _ hne
    have hbody : joinComma ((z :: ll).map jsonIntList) ++ [']'] ≠ [']'] := by
      intro h
      have hl := congrArg List.length h
      simp only [List.length_append, List.length_cons, List.length_nil] at hl
      omega
    show parseIntListList ('[' :: (joinComma ((z :: ll).map jsonIntList) ++ [']'])) = _
    simp only [parseIntListList]
    rw [if_pos
      (show ('[' :: (joinComma ((z :: ll).map jsonIntList) ++ [']'])).head? = some '['
        from rfl)]
    rw [show ('[' :: (joinComma ((z :: ll).map jsonIntList) ++ [']'])).drop 1
        = joinComma ((z :: ll).map jsonIntList) ++ [']'] from rfl]
    rw [if_neg hbody]
    rw [parseInnerElems_elems (z :: ll) _ [']'] (by simp)
      (by simp only [List.length_append, List.length_cons, List.length_nil]; omega)
      (by intro c hc
          simp only [List.head?_cons, Option.some.injEq] at hc
          subst hc
          decide)]
    simp only [Option.some_bind]
    rw [if_pos trivial]

/-! ## HTTP model -/

/-- A Go `http.Header`: header name ↦ list of values, modelled as an
association list with one entry per key (the keys used by the package,
`Authorization` and `Content-Type`, are already in canonical MIME form). -/
abbrev Header := List (String × List String)

def headerGet (h : Header) (key : String) : List String :=
  match h.find? (fun e => e.1 == key) with
  | some e => e.2
  | none => []

/-- Go `http.Header.Set`: replace the key's values with the single value. -/
def headerSet (h : Header) (key value : String) : Header :=
  if h.any (fun e => e.1 == key) then
    h.map (fun e => if e.1 == key then (e.1, [value]) else e)
  else h ++ [(key, [value])]

/-- Go `http.Header.Add`: append the value to the key's value list. -/
def headerAdd (h : Header) (key value : String) : Header :=
  if h.any (fun e => e.1 == key) then
    h.map (fun e => if e.1 == key then (e.1, e.2 ++ [value]) else e)
  else h ++ [(key, [value])]

/-- `for key, values := range c.Headers { for _, value := range values {
req.Header.Add(key, value) } }` from `makeMultipartPostRequest`. -/
def headerAddAll (dst : Header) (src : Header) : Header :=
  src.foldl (fun acc e => e.2.foldl (fun acc2 v => headerAdd acc2 e.1 v) acc) dst

/-- A Go `http.Response`, restricted to the fields the client reads.
`bodyReadErr` says whether reading the body (`io.ReadAll`) fails. -/
structure Response where
  statusCode : Nat
  status : String
  body : String
  bodyReadErr : Bool
deriving DecidableEq

/-- The `PDFError` struct from `errors.go`. -/
structure PDFError where
  StatusCode : Nat
  Status : String
  Response : String
  Message : String
deriving DecidableEq

/-- `NewPDFError` from `errors.go`: reads the whole body, substituting the
sentinel text when the read fails.  The composite literal in the source
initializes only `StatusCode`, `Response` and `Message`; `Status` is left at
its zero value `""`. -/
def NewPDFError (resp : Response) : PDFError :=
  { StatusCode := resp.statusCode
    Status := ""
    Response := if resp.bodyReadErr then "failed to read response body" else resp.body
    Message := "Server returned an HTTP error" }

/-- Errors surfaced by client operations.  `ioErr`/`transportErr` carry the
underlying error message verbatim, as Go propagates the `error` value. -/
inductive GoError where
  | pdfErr (e : PDFError)
  | ioErr (msg : String)
  | transportErr (msg : String)
  | unsupportedFileType (typeDesc : String)
deriving DecidableEq

/-- The message carried by an error (`err.Error()` in Go; for `PDFError` the
format string of `errors.go`, for the unsupported-input case the
`fmt.Errorf("unsupported file type: %T", file)` text). -/
def GoError.message : GoError → String
  | .pdfErr e =>
      e.Message ++ ". Status Code: " ++ String.mk (natRepr e.StatusCode)
        ++ ", Response: " ++ e.Response
  | .ioErr m => m
  | .transportErr m => m
  | .unsupportedFileType t => "unsupported file type: " ++ t

/-- One part of a multipart/form-data body. -/
inductive Part where
  | filePart (fieldName filename : String) (content : String)
  | fieldPart (key value : String)
deriving DecidableEq

/-- An outgoing HTTP request (multipart body kept structured). -/
structure Request where
  method : String
  url : String
  headers : Header
  parts : List Part
deriving DecidableEq

/-! ## The PDF client -/

structure PDFClient where
  APIVersion : String
  BaseURL : String
  APIKey : String
  Headers : Header
  SupportedImageFormats : List String
deriving DecidableEq

/-- The literal the `NewPDFClient` constructor starts from. -/
def defaultClient (apiKey : String) : PDFClient :=
  { APIVersion := "v1"
    BaseURL := "https://data.fastpdfservice.com"
    APIKey := apiKey
    Headers := [("Authorization", [apiKey])]
    SupportedImageFormats :=
      ["jpeg", "png", "gif", "bmp", "tiff", "webp", "svg", "ico", "pdf",
       "psd", "ai", "eps", "cr2", "nef", "sr2", "orf", "rw2", "dng",
       "arw", "heic"] }

/-- `NewPDFClient` from `api.go`: defaults, then the option functions in
order, then the version segment appended exactly once
(`fmt.Sprintf("%s/%s", client.BaseURL, client.APIVersion)`). -/
def NewPDFClient (apiKey : String) (options : List (PDFClient → PDFClient)) : PDFClient :=
  let client := options.foldl (fun c option => option c) (defaultClient apiKey)
  { client with BaseURL := client.BaseURL ++ "/" ++ client.APIVersion }

def SetBaseURL (url : String) : PDFClient → PDFClient :=
  fun c => { c with BaseURL := url }

def SetAPIVersion (version : String) : PDFClient → PDFClient :=
  fun c => { c with APIVersion := version }

/-! ## readFile -/

/-- The `file interface{}` argument: a path string, raw bytes, or a value of
any other dynamic type, described by its Go type string as `%T` prints it. -/
inductive FileInput where
  | path (p : String)
  | bytes (b : String)
  | other (typeDesc : String)
deriving DecidableEq

/-- Oracles for the library calls `readFile` makes. -/
structure FileEnv where
  osReadFile : String → Except String String
  mimeTypeByExtension : String → String
  detectContentType : String → String

/-- `path/filepath.Ext` for slash-separated paths: the suffix starting at the
final dot of the final element, `""` if there is none. -/
def filepathExt (p : String) : String :=
  let pre := p.data.reverse.takeWhile (fun c => !(c == '.' || c == '/'))
  match p.data.reverse.drop pre.length with
  | '.' :: _ => String.mk ('.' :: pre.reverse)
  | _ => ""

/-- `path/filepath.Base` for slash-separated paths. -/
def filepathBase (p : String) : String :=
  if p = "" then "."
  else
    let cs := p.data.reverse.dropWhile (fun c => c == '/')
    if cs = [] then "/"
    else String.mk ((cs.takeWhile (fun c => !(c == '/'))).reverse)

/-- `readFile` from `api.go`.  (The source applies the
`application/octet-stream` default once after the type switch; it is inlined
into each successful branch here, which is equivalent.) -/
def readFile (env : FileEnv) : FileInput → Except GoError (String × String × String)
  | .path p =>
    match env.osReadFile p with
    | .error e => .error (.ioErr e)
    | .ok content =>
      let contentType := env.mimeTypeByExtension (filepathExt p)
      .ok (filepathBase p, content,
        if contentType = "" then "application/octet-stream" else contentType)
  | .bytes b =>
    let contentType := env.detectContentType b
    .ok ("", b, if contentType = "" then "application/octet-stream" else contentType)
  | .other t => .error (.unsupportedFileType t)

/-! ## Requests and operations -/

/-- The transport (`http.Client.Do`, failing with a transport error or
producing a response) together with the boundary `multipart.NewWriter`
chooses. -/
structure NetEnv where
  boundary : String
  send : Request → Except String Response

def tokenRequest (client : PDFClient) : Request :=
  { method := "GET"
    url := client.BaseURL ++ "/token"
    headers := client.Headers
    parts := [] }

/-- `ValidateToken` from `api.go` (the request carries `client.Headers` via
the `req.Header = client.Headers` assignment). -/
def ValidateToken (client : PDFClient) (net : NetEnv) : Bool × Option GoError :=
  match net.send (tokenRequest client) with
  | .error e => (false, some (.transportErr e))
  | .ok response =>
    if response.statusCode ≠ 200 then (false, some (.pdfErr (NewPDFError response)))
    else (true, none)

/-- The multipart body built by `makeMultipartPostRequest`: exactly one file
part, then one field part per extra field.  (Writes into the in-memory
`bytes.Buffer` cannot fail, so the writer error paths of the source are
unreachable; Go's map iteration order over a single-entry `extraFields` map
is immaterial, the model keeps the association-list order.) -/
def multipartParts (fileField fileData filename : String)
    (extraFields : List (String × String)) : List Part :=
  Part.filePart fileField filename fileData ::
    extraFields.map (fun kv => Part.fieldPart kv.1 kv.2)

/-- The POST request built by `makeMultipartPostRequest`: the boundary-bearing
content-type header is set first, then every client header is added. -/
def multipartRequest (c : PDFClient) (url fileField fileData filename : String)
    (extraFields : List (String × String)) (boundary : String) : Request :=
  { method := "POST"
    url := url
    headers := headerAddAll
      (headerSet [] "Content-Type" ("multipart/form-data; boundary=" ++ boundary))
      c.Headers
    parts := multipartParts fileField fileData filename extraFields }

/-- An operation's outcome: the requests actually handed to the transport,
plus the Go return value (`[]byte, error`). -/
structure OpResult where
  calls : List Request
  result : Except GoError String

/-- `makeMultipartPostRequest` from `api.go`.  On a non-200 status the
response is decoded by `NewPDFError`; on 200 the body is read in full
(`io.ReadAll`, whose failure is propagated). -/
def makeMultipartPostRequest (c : PDFClient) (url fileField fileData filename : String)
    (extraFields : List (String × String)) (net : NetEnv) : OpResult :=
  let req := multipartRequest c url fileField fileData filename extraFields net.boundary
  { calls := [req]
    result :=
      match net.send req with
      | .error e => .error (.transportErr e)
      | .ok resp =>
        if resp.statusCode ≠ 200 then .error (.pdfErr (NewPDFError resp))
        else if resp.bodyReadErr then .error (.ioErr "body read error")
        else .ok resp.body }

/-- `Split` from `api.go`.  (`json.Marshal` cannot fail on `[]int`, so the
marshalling error branch of the source is unreachable.) -/
def Split (c : PDFClient) (fenv : FileEnv) (net : NetEnv)
    (file : FileInput) (splits : List Int) : OpResult :=
  match readFile fenv file with
  | .error e => { calls := [], result := .error e }
  | .ok (filename, fileContent, _) =>
    makeMultipartPostRequest c (c.BaseURL ++ "/pdf/split") "file" fileContent filename
      [("splits", String.mk (jsonIntList splits))] net

/-- `SplitZip` from `api.go`. -/
def SplitZip (c : PDFClient) (fenv : FileEnv) (net : NetEnv)
    (file : FileInput) (splits : List (List Int)) : OpResult :=
  match readFile fenv file with
  | .error e => { calls := [], result := .error e }
  | .ok (filename, fileContent, _) =>
    makeMultipartPostRequest c (c.BaseURL ++ "/pdf/split-zip") "file" fileContent filename
      [("splits", String.mk (jsonIntListList splits))] net

def quoteChar : Char := Char.ofNat 34

def backslashChar : Char := '\\'

def lbraceChar : Char := Char.ofNat 123

def rbraceChar : Char := Char.ofNat 125

def jsonEscape : List Char → List Char
  | [] => []
  | c :: cs =>
    (if c = quoteChar || c = backslashChar then [backslashChar, c] else [c]) ++ jsonEscape cs

def jsonStringLit (s : String) : List Char := quoteChar :: (jsonEscape s.data ++ [quoteChar])

/-- Go `json.Marshal` of a `map[string]string`, modelled over an association
list in entry order (Go sorts the map keys; no claim depends on the order)
with quote/backslash escaping (Go additionally escapes control and some HTML
characters; no claim depends on those). -/
def jsonStringMap (m : List (String × String)) : List Char :=
  lbraceChar ::
    (joinComma (m.map (fun kv => jsonStringLit kv.1 ++ ':' :: jsonStringLit kv.2))
      ++ [rbraceChar])

/-- `EditMetadata` from `api.go`. -/
def EditMetadata (c : PDFClient) (fenv : FileEnv) (net : NetEnv)
    (file : FileInput) (metadata : List (String × String)) : OpResult :=
  match readFile fenv file with
  | .error e => { calls := [], result := .error e }
  | .ok (filename, fileContent, _) =>
    makeMultipartPostRequest c (c.BaseURL ++ "/pdf/metadata") "file" fileContent filename
      [("metadata", String.mk (jsonStringMap metadata))] net

/-! ## Save -/

/-- The filesystem as a path ↦ content map. -/
abbrev FS := List (String × String)

/-- Create or overwrite a file (most recent write first). -/
def setFile (fs : FS) (path content : String) : FS :=
  (path, content) :: fs.filter (fun e => !(e.1 == path))

def lookupFile (fs : FS) (path : String) : Option String :=
  match fs.find? (fun e => e.1 == path) with
  | some e => some e.2
  | none => none

/-- The `os.WriteFile` oracle: whether writing a given path fails, and with
what error. -/
structure WriteEnv where
  writeErr : String → Option String

/-- `Save` from `api.go`: a non-empty path means write (mode 0644) and return
`(nil, nil)` on success or `(nil, err)` verbatim on failure; an empty path
means return the content as a byte slice with no filesystem effect.  The
result pairs the updated filesystem with the Go `([]byte, error)` pair. -/
def Save (env : WriteEnv) (fs : FS) (content filePath : String) :
    FS × (Option String × Option GoError) :=
  if filePath ≠ "" then
    match env.writeErr filePath with
    | some e => (fs, (none, some (.ioErr e)))
    | none => (setFile fs filePath content, (none, none))
  else
    (fs, (some content, none))

/-! ## Extract -/

/-- One entry of a parsed zip archive, with per-entry oracles for the
fallible `file.Open()` and `io.Copy` steps. -/
structure ZipEntry where
  name : String
  isDir : Bool
  mode : Nat
  content : String
  openErr : Option String
  copyErr : Option String
deriving DecidableEq

/-- Oracles for `zip.NewReader`, `os.MkdirAll` and `os.OpenFile`. -/
structure ExtractEnv where
  zipParse : String → Except String (List ZipEntry)
  mkdirErr : String → Option String
  openFileErr : String → Option String

/-- Filesystem state produced by extraction: created files and directories. -/
structure ExtState where
  files : FS
  dirs : List String
deriving DecidableEq

/-- `filepath.Join` for clean slash-separated arguments. -/
def joinPath (dir name : String) : String := dir ++ "/" ++ name

/-- One iteration of the `Extract` loop.  For a directory entry the source
calls `os.MkdirAll(fPath, os.ModePerm)` and discards its error; for a file
entry, `os.OpenFile` (create+truncate), `file.Open` and `io.Copy` each abort
on error.  After a failed copy the file exists truncated or partially
written (modelled empty). -/
def extractEntry (env : ExtractEnv) (outputPath : String) (st : ExtState)
    (e : ZipEntry) : ExtState × Option GoError :=
  let fPath := joinPath outputPath e.name
  if e.isDir then
    match env.mkdirErr fPath with
    | some _ => (st, none)
    | none => ({ st with dirs := st.dirs ++ [fPath] }, none)
  else
    match env.openFileErr fPath with
    | some m => (st, some (.ioErr m))
    | none =>
      match e.openErr with
      | some m => ({ st with files := setFile st.files fPath "" }, some (.ioErr m))
      | none =>
        match e.copyErr with
        | some m => ({ st with files := setFile st.files fPath "" }, some (.ioErr m))
        | none => ({ st with files := setFile st.files fPath e.content }, none)

def extractLoop (env : ExtractEnv) (outputPath : String) :
    ExtState → List ZipEntry → ExtState × Option GoError
  | st, [] => (st, none)
  | st, e :: rest =>
    match extractEntry env outputPath st e with
    | (st1, some err) => (st1, some err)
    | (st1, none) => extractLoop env outputPath st1 rest

/-- `Extract` from `api.go`: parse the archive (`zip.NewReader`), then process
every entry in order, stopping at the first surfaced error. -/
def Extract (env : ExtractEnv) (st : ExtState) (zipBytes outputPath : String) :
    ExtState × Option GoError :=
  match env.zipParse zipBytes with
  | .error e => (st, some (.ioErr e))
  | .ok entries => extractLoop env outputPath st entries

/-! ## Concrete fixtures used to evaluate the theorems on closed inputs -/

def fenv0 : FileEnv :=
  { osReadFile := fun _ => .error "read failed"
    mimeTypeByExtension := fun _ => ""
    detectContentType := fun _ => "" }

def resp200 : Response :=
  { statusCode := 200, status := "200 OK", body := "PDFBYTES", bodyReadErr := false }

def resp201 : Response :=
  { statusCode := 201, status := "201 Created", body := "created", bodyReadErr := false }

def fixtureNet (r : Response) : NetEnv :=
  { boundary := "bnd", send := fun _ => .ok r }

def c0 : PDFClient := NewPDFClient "key0" []

def wenvA : WriteEnv :=
  { writeErr := fun p => if p == "fail.pdf" then some "disk full" else none }

def zipEntryDir : ZipEntry :=
  { name := "d", isDir := true, mode := 511, content := "", openErr := none, copyErr := none }

def zipEntryF : ZipEntry :=
  { name := "f", isDir := false, mode := 420, content := "xyz", openErr := none, copyErr := none }

def zipEntryG : ZipEntry :=
  { name := "g", isDir := false, mode := 420, content := "zzz", openErr := none, copyErr := none }

def xenvA : ExtractEnv :=
  { zipParse := fun z =>
      if z == "BAD" then .error "zip: not a valid zip file" else .ok [zipEntryDir]
    mkdirErr := fun p => if p == "out/d" then some "mkdir failed" else none
    openFileErr := fun p => if p == "out/f" then some "open failed" else none }

/-! ## Supporting lemmas -/

lemma lookupFile_setFile (fs : FS) (p v : String) :
    lookupFile (setFile fs p v) p = some v := by
  simp [lookupFile, setFile, List.find?]

/-! ## The claims -/

/-- Claim C2: constructing a client from an API key, base URL and version
yields a base URL equal to the given base, `/`, then the given version — the
version segment appended exactly once, after all option functions have been
applied — and a header set containing exactly one header, the Authorization
header, whose single value is the API key. -/
theorem claim_c2 (apiKey base version : String) :
    (NewPDFClient apiKey [SetBaseURL base, SetAPIVersion version]).BaseURL
        = base ++ "/" ++ version
    ∧ (NewPDFClient apiKey [SetBaseURL base, SetAPIVersion version]).Headers
        = [("Authorization", [apiKey])]
    ∧ ∀ options : List (PDFClient → PDFClient),
        (NewPDFClient apiKey options).BaseURL
          = (options.foldl (fun c option => option c) (defaultClient apiKey)).BaseURL
            ++ "/"
            ++ (options.foldl (fun c option => option c) (defaultClient apiKey)).APIVersion :=
  ⟨rfl, rfl, fun _ => rfl⟩

/-- Claim C4: the error decoder never fails (it is a total function): for
every response it returns an error value carrying the response's status code,
the raw body — with the sentinel text substituted when the body read fails —
and the fixed message. -/
theorem claim_c4 (resp : Response) :
    (NewPDFError resp).StatusCode = resp.statusCode
    ∧ (NewPDFError resp).Response
        = (if resp.bodyReadErr then "failed to read response body" else resp.body)
    ∧ (NewPDFError resp).Message = "Server returned an HTTP error" :=
  ⟨rfl, rfl, rfl⟩

/-- Claim C5 counterexample: for a concrete 404 response whose status text is
`404 Not Found`, the decoded error's `Status` field does not carry the
response's status text. -/
theorem claim_c5_counterexample :
    (NewPDFError { statusCode := 404, status := "404 Not Found",
                   body := "gone", bodyReadErr := false }).Status
      ≠ "404 Not Found" := by decide

/-- Claim C5 (amended): the decoder's error value carries the status code and
the raw response body, but its `Status` field is never populated from the
response's status text: it is always the empty string. -/
theorem claim_c5_amended (resp : Response) :
    (NewPDFError resp).Status = ""
    ∧ (NewPDFError resp).StatusCode = resp.statusCode
    ∧ (NewPDFError resp).Response
        = (if resp.bodyReadErr then "failed to read response body" else resp.body) :=
  ⟨rfl, rfl, rfl⟩

/-- Claim C1: HTTP 200 is the only success status.  Against a transport that
answers with an arbitrary response, the multipart operations return the full
body exactly when the status is 200, and on any other status — other 2xx
included — return the `NewPDFError` service error carrying that status code;
token validation returns `(true, none)` on 200 and `(false, some err)` with
the status-carrying error otherwise. -/
theorem claim_c1 (c : PDFClient) (fenv : FileEnv) (boundary : String)
    (resp : Response) (file : FileInput) (fn content ct : String)
    (url fileField fileData filename : String)
    (extraFields : List (String × String))
    (splits : List Int) (pairs : List (List Int))
    (metadata : List (String × String))
    (hread : resp.bodyReadErr = false)
    (hfile : readFile fenv file = .ok (fn, content, ct)) :
    (resp.statusCode = 200 →
      (makeMultipartPostRequest c url fileField fileData filename extraFields
          { boundary := boundary, send := fun _ => .ok resp }).result = .ok resp.body
      ∧ (Split c fenv { boundary := boundary, send := fun _ => .ok resp }
          file splits).result = .ok resp.body
      ∧ (SplitZip c fenv { boundary := boundary, send := fun _ => .ok resp }
          file pairs).result = .ok resp.body
      ∧ (EditMetadata c fenv { boundary := boundary, send := fun _ => .ok resp }
          file metadata).result = .ok resp.body
      ∧ ValidateToken c { boundary := boundary, send := fun _ => .ok resp }
          = (true, none))
    ∧ (resp.statusCode ≠ 200 →
      (NewPDFError resp).StatusCode = resp.statusCode
      ∧ (makeMultipartPostRequest c url fileField fileData filename extraFields
          { boundary := boundary, send := fun _ => .ok resp }).result
          = .error (.pdfErr (NewPDFError resp))
      ∧ (Split c fenv { boundary := boundary, send := fun _ => .ok resp }
          file splits).result = .error (.pdfErr (NewPDFError resp))
      ∧ (SplitZip c fenv { boundary := boundary, send := fun _ => .ok resp }
          file pairs).result = .error (.pdfErr (NewPDFError resp))
      ∧ (EditMetadata c fenv { boundary := boundary, send := fun _ => .ok resp }
          file metadata).result = .error (.pdfErr (NewPDFError resp))
      ∧ ValidateToken c { boundary := boundary, send := fun _ => .ok resp }
          = (false, some (.pdfErr (NewPDFError resp)))) := by
  constructor
  · intro h200
    have hmm : ∀ url2 ff fd fn2 ef,
        (makeMultipartPostRequest c url2 ff fd fn2 ef
          { boundary := boundary, send := fun _ => .ok resp }).result = .ok resp.body := by
      intro url2 ff fd fn2 ef
      simp [makeMultipartPostRequest, h200, hread]
    refine ⟨hmm _ _ _ _ _, ?_, ?_, ?_, ?_⟩
    · simp only [Split, hfile]; exact hmm _ _ _ _ _
    · simp only [SplitZip, hfile]; exact hmm _ _ _ _ _
    · simp only [EditMetadata, hfile]; exact hmm _ _ _ _ _
    · simp [ValidateToken, h200]
  · intro h200
    have hmm : ∀ url2 ff fd fn2 ef,
        (makeMultipartPostRequest c url2 ff fd fn2 ef
          { boundary := boundary, send := fun _ => .ok resp }).result
          = .error (.pdfErr (NewPDFError resp)) := by
      intro url2 ff fd fn2 ef
      simp [makeMultipartPostRequest, h200]
    refine ⟨rfl, hmm _ _ _ _ _, ?_, ?_, ?_, ?_⟩
    · simp only [Split, hfile]; exact hmm _ _ _ _ _
    · simp only [SplitZip, hfile]; exact hmm _ _ _ _ _
    · simp only [EditMetadata, hfile]; exact hmm _ _ _ _ _
    · simp [ValidateToken, h200]

/-- Claim C1 witness: evaluated at a 201 response (a non-200 2xx status), a
split returns the service error carrying 201; at a 200 response, token
validation succeeds. -/
theorem claim_c1_witness :
    (Split c0 fenv0 (fixtureNet resp201) (.bytes "x") [3]).result
        = .error (.pdfErr (NewPDFError resp201))
    ∧ ValidateToken c0 (fixtureNet resp200) = (true, none) :=
  ⟨((claim_c1 c0 fenv0 "bnd" resp201 (.bytes "x") "" "x" "application/octet-stream"
      "u" "f" "d" "n" [] [3] [] [] rfl rfl).2 (by decide)).2.2.1,
   ((claim_c1 c0 fenv0 "bnd" resp200 (.bytes "x") "" "x" "application/octet-stream"
      "u" "f" "d" "n" [] [3] [] [] rfl rfl).1 rfl).2.2.2.2⟩

/-- Claim C3: every outgoing request of every client operation carries the
auth header with the client's API key: the token-validation GET carries the
client's header set verbatim, and every multipart POST — the single request
each of Split, SplitZip and EditMetadata hands to the transport — has the
Authorization header with the key as its value, next to the encoder-set
content-type header. -/
theorem claim_c3 (apiKey : String) (c : PDFClient)
    (fenv : FileEnv) (net : NetEnv) (file : FileInput)
    (fn content ct : String) (url fileField fileData filename : String)
    (extraFields : List (String × String))
    (splits : List Int) (pairs : List (List Int))
    (metadata : List (String × String))
    (hc : c.Headers = [("Authorization", [apiKey])])
    (hfile : readFile fenv file = .ok (fn, content, ct)) :
    headerGet (tokenRequest c).headers "Authorization" = [apiKey]
    ∧ headerGet (multipartRequest c url fileField fileData filename extraFields
        net.boundary).headers "Authorization" = [apiKey]
    ∧ (Split c fenv net file splits).calls
        = [multipartRequest c (c.BaseURL ++ "/pdf/split") "file" content fn
            [("splits", String.mk (jsonIntList splits))] net.boundary]
    ∧ (SplitZip c fenv net file pairs).calls
        = [multipartRequest c (c.BaseURL ++ "/pdf/split-zip") "file" content fn
            [("splits", String.mk (jsonIntListList pairs))] net.boundary]
    ∧ (EditMetadata c fenv net file metadata).calls
        = [multipartRequest c (c.BaseURL ++ "/pdf/metadata") "file" content fn
            [("metadata", String.mk (jsonStringMap metadata))] net.boundary] := by
  refine ⟨?_, ?_, ?_, ?_, ?_⟩
  · simp [tokenRequest, headerGet, hc]
  · simp [multipartRequest, headerGet, headerAddAll, headerAdd, headerSet, hc]
  · simp only [Split, hfile]; rfl
  · simp only [SplitZip, hfile]; rfl
  · simp only [EditMetadata, hfile]; rfl

/-- Claim C3 witness: for the client built from key `key0`, both the token
request and a multipart request carry the Authorization header with value
`key0`. -/
theorem claim_c3_witness :
    headerGet (tokenRequest c0).headers "Authorization" = ["key0"]
    ∧ headerGet (multipartRequest c0 "u" "file" "d" "n" [] "bnd").headers
        "Authorization" = ["key0"] :=
  ⟨(claim_c3 "key0" c0 fenv0 (fixtureNet resp200) (.bytes "x") ""
      "x" "application/octet-stream" "u" "file" "d" "n" [] [] [] [] rfl rfl).1,
   (claim_c3 "key0" c0 fenv0 (fixtureNet resp200) (.bytes "x") ""
      "x" "application/octet-stream" "u" "file" "d" "n" [] [] [] [] rfl rfl).2.1⟩

/-- Claim C6 counterexample: a directory entry whose `os.MkdirAll` fails does
not abort the extraction and its error is not surfaced — `Extract` returns no
error even though the path-creation oracle failed on the entry's path. -/
theorem claim_c6_counterexample :
    xenvA.mkdirErr (joinPath "out" "d") = some "mkdir failed"
    ∧ Extract xenvA { files := [], dirs := [] } "ZIP" "out"
        = ({ files := [], dirs := [] }, none) :=
  ⟨rfl, rfl⟩

/-- Claim C6 (amended): a bad zip structure, a file-creation (`os.OpenFile`)
failure, an entry-open failure and a copy failure each abort the extraction
at once with the error surfaced verbatim and without rolling back the state
written so far; a directory-creation (`os.MkdirAll`) failure, however, is
silently ignored and the loop continues. -/
theorem claim_c6_amended (env : ExtractEnv) (st : ExtState)
    (zipBytes outputPath m : String) (e : ZipEntry) (rest : List ZipEntry) :
    (env.zipParse zipBytes = .error m →
        Extract env st zipBytes outputPath = (st, some (.ioErr m)))
    ∧ (e.isDir = false → env.openFileErr (joinPath outputPath e.name) = some m →
        extractLoop env outputPath st (e :: rest) = (st, some (.ioErr m)))
    ∧ (e.isDir = false → env.openFileErr (joinPath outputPath e.name) = none →
        e.openErr = some m →
        extractLoop env outputPath st (e :: rest)
          = ({ st with files := setFile st.files (joinPath outputPath e.name) "" },
             some (.ioErr m)))
    ∧ (e.isDir = false → env.openFileErr (joinPath outputPath e.name) = none →
        e.openErr = none → e.copyErr = some m →
        extractLoop env outputPath st (e :: rest)
          = ({ st with files := setFile st.files (joinPath outputPath e.name) "" },
             some (.ioErr m)))
    ∧ (e.isDir = true → env.mkdirErr (joinPath outputPath e.name) = some m →
        extractLoop env outputPath st (e :: rest) = extractLoop env outputPath st rest) := by
  refine ⟨?_, ?_, ?_, ?_, ?_⟩
  · intro h; simp [Extract, h]
  · intro hdir hopen; simp [extractLoop, extractEntry, hdir, hopen]
  · intro hdir hopen hoe; simp [extractLoop, extractEntry, hdir, hopen, hoe]
  · intro hdir hopen hoe hcp; simp [extractLoop, extractEntry, hdir, hopen, hoe, hcp]
  · intro hdir hmk; simp [extractLoop, extractEntry, hdir, hmk]

/-- Claim C6 witness: a bad archive surfaces the parser's error verbatim; an
`os.OpenFile` failure aborts before later entries, leaving earlier writes in
place; a failed directory creation is skipped silently. -/
theorem claim_c6_witness :
    Extract xenvA { files := [], dirs := [] } "BAD" "out"
        = ({ files := [], dirs := [] }, some (.ioErr "zip: not a valid zip file"))
    ∧ extractLoop xenvA "out" { files := [("pre", "c")], dirs := [] }
        [zipEntryF, zipEntryG]
        = ({ files := [("pre", "c")], dirs := [] }, some (.ioErr "open failed"))
    ∧ extractLoop xenvA "out" { files := [], dirs := [] } [zipEntryDir]
        = extractLoop xenvA "out" { files := [], dirs := [] } [] :=
  ⟨(claim_c6_amended xenvA { files := [], dirs := [] } "BAD" "out"
      "zip: not a valid zip file" zipEntryDir []).1 rfl,
   (claim_c6_amended xenvA { files := [("pre", "c")], dirs := [] } "BAD" "out"
      "open failed" zipEntryF [zipEntryG]).2.1 rfl rfl,
   (claim_c6_amended xenvA { files := [], dirs := [] } "BAD" "out"
      "mkdir failed" zipEntryDir []).2.2.2.2 rfl rfl⟩

/-- Claim C7: Split sends exactly one multipart file part and one extra field
named `splits` whose JSON value deserializes back to the identical integer
list; SplitZip's `splits` field deserializes back to the identical nested
list-of-lists structure (so in particular to any list of `[start,end]`
pairs). -/
theorem claim_c7 (c : PDFClient) (fenv : FileEnv) (net : NetEnv) (file : FileInput)
    (fn content ct : String) (splits : List Int) (pairs : List (List Int))
    (hfile : readFile fenv file = .ok (fn, content, ct)) :
    (Split c fenv net file splits).calls
      = [multipartRequest c (c.BaseURL ++ "/pdf/split") "file" content fn
          [("splits", String.mk (jsonIntList splits))] net.boundary]
    ∧ (multipartRequest c (c.BaseURL ++ "/pdf/split") "file" content fn
        [("splits", String.mk (jsonIntList splits))] net.boundary).parts
      = [Part.filePart "file" fn content,
         Part.fieldPart "splits" (String.mk (jsonIntList splits))]
    ∧ parseIntList (String.mk (jsonIntList splits)).data = some splits
    ∧ (SplitZip c fenv net file pairs).calls
      = [multipartRequest c (c.BaseURL ++ "/pdf/split-zip") "file" content fn
          [("splits", String.mk (jsonIntListList pairs))] net.boundary]
    ∧ (multipartRequest c (c.BaseURL ++ "/pdf/split-zip") "file" content fn
        [("splits", String.mk (jsonIntListList pairs))] net.boundary).parts
      = [Part.filePart "file" fn content,
         Part.fieldPart "splits" (String.mk (jsonIntListList pairs))]
    ∧ parseIntListList (String.mk (jsonIntListList pairs)).data = some pairs := by
  refine ⟨?_, rfl, parseIntList_jsonIntList splits, ?_, rfl,
    parseIntListList_jsonIntListList pairs⟩
  · simp only [Split, hfile]; rfl
  · simp only [SplitZip, hfile]; rfl

/-- Claim C7 witness: evaluated at the specification's examples `[3, 7]` and
`[[0, 1], [1, 2]]`, both round trips are exact and Split issues the single
expected request. -/
theorem claim_c7_witness :
    parseIntList (String.mk (jsonIntList [3, 7])).data = some [3, 7]
    ∧ parseIntListList (String.mk (jsonIntListList [[0, 1], [1, 2]])).data
        = some [[0, 1], [1, 2]]
    ∧ (Split c0 fenv0 (fixtureNet resp200) (.bytes "x") [3, 7]).calls
        = [multipartRequest c0 (c0.BaseURL ++ "/pdf/split") "file" "x" ""
            [("splits", String.mk (jsonIntList [3, 7]))] (fixtureNet resp200).boundary] :=
  ⟨(claim_c7 c0 fenv0 (fixtureNet resp200) (.bytes "x") "" "x"
      "application/octet-stream" [3, 7] [[0, 1], [1, 2]] rfl).2.2.1,
   (claim_c7 c0 fenv0 (fixtureNet resp200) (.bytes "x") "" "x"
      "application/octet-stream" [3, 7] [[0, 1], [1, 2]] rfl).2.2.2.2.2,
   (claim_c7 c0 fenv0 (fixtureNet resp200) (.bytes "x") "" "x"
      "application/octet-stream" [3, 7] [[0, 1], [1, 2]] rfl).1⟩

/-- Claim C8: with a non-empty path, Save writes exactly the given bytes to
that path and returns no content and no error — unless the write fails, in
which case the I/O error is surfaced verbatim and the filesystem is
untouched; with an empty path, Save returns the content unchanged and
creates no file. -/
theorem claim_c8 (env : WriteEnv) (fs : FS) (content filePath m : String) :
    (filePath ≠ "" → env.writeErr filePath = none →
        Save env fs content filePath = (setFile fs filePath content, (none, none))
        ∧ lookupFile (setFile fs filePath content) filePath = some content)
    ∧ (filePath ≠ "" → env.writeErr filePath = some m →
        Save env fs content filePath = (fs, (none, some (.ioErr m))))
    ∧ Save env fs content "" = (fs, (some content, none)) := by
  refine ⟨?_, ?_, rfl⟩
  · intro hp hw
    exact ⟨by simp [Save, hp, hw], lookupFile_setFile fs filePath content⟩
  · intro hp hw
    simp [Save, hp, hw]

/-- Claim C8 witness: writing `DATA` to `out.pdf` stores exactly those bytes
and returns `(nil, nil)`; a failing write surfaces `disk full` verbatim. -/
theorem claim_c8_witness :
    Save wenvA [] "DATA" "out.pdf" = (setFile [] "out.pdf" "DATA", (none, none))
    ∧ lookupFile (setFile [] "out.pdf" "DATA") "out.pdf" = some "DATA"
    ∧ Save wenvA [] "DATA" "fail.pdf" = ([], (none, some (.ioErr "disk full"))) :=
  ⟨((claim_c8 wenvA [] "DATA" "out.pdf" "disk full").1 (by decide) rfl).1,
   ((claim_c8 wenvA [] "DATA" "out.pdf" "disk full").1 (by decide) rfl).2,
   (claim_c8 wenvA [] "DATA" "fail.pdf" "disk full").2.1 (by decide) rfl⟩

/-- Claim C9: an input that is neither a path string nor raw bytes makes
`readFile` fail with an error naming the actual dynamic type, and Split,
SplitZip and EditMetadata return exactly that error while handing no request
at all to the transport. -/
theorem claim_c9 (c : PDFClient) (fenv : FileEnv) (net : NetEnv) (t : String)
    (splits : List Int) (pairs : List (List Int))
    (metadata : List (String × String)) :
    readFile fenv (.other t) = .error (.unsupportedFileType t)
    ∧ (GoError.unsupportedFileType t).message = "unsupported file type: " ++ t
    ∧ Split c fenv net (.other t) splits
        = { calls := [], result := .error (.unsupportedFileType t) }
    ∧ SplitZip c fenv net (.other t) pairs
        = { calls := [], result := .error (.unsupportedFileType t) }
    ∧ EditMetadata c fenv net (.other t) metadata
        = { calls := [], result := .error (.unsupportedFileType t) } :=
  ⟨rfl, rfl, rfl, rfl, rfl⟩

/-- Claim C10: a successful read never yields an empty content type: whenever
detection yields nothing, `readFile` substitutes `application/octet-stream`. -/
theorem claim_c10 (fenv : FileEnv) (file : FileInput) (fn content ct : String)
    (hfile : readFile fenv file = .ok (fn, content, ct)) : ct ≠ "" := by
  cases file with
  | path p =>
    simp only [readFile] at hfile
    cases hro : fenv.osReadFile p with
    | error e => rw [hro] at hfile; cases hfile
    | ok content2 =>
      rw [hro] at hfile
      simp only [Except.ok.injEq, Prod.mk.injEq] at hfile
      obtain ⟨-, -, hct⟩ := hfile
      subst hct
      split
      · decide
      · assumption
  | bytes b =>
    simp only [readFile, Except.ok.injEq, Prod.mk.injEq] at hfile
    obtain ⟨-, -, hct⟩ := hfile
    subst hct
    split
    · decide
    · assumption
  | other t => cases hfile

/-- Claim C10 witness: evaluated on raw bytes for which content sniffing
returns the empty string, the returned content type is the non-empty
default. -/
theorem claim_c10_witness : ("application/octet-stream" : String) ≠ "" :=
  claim_c10 fenv0 (.bytes "x") "" "x" "application/octet-stream" rfl

end FastPdf
